import Mathlib

/-!
Verification of the table-segmentation and totals-reconciliation pipeline
of `excelbb.py` (ExcelBudgetBox).  The Python DataFrame is embedded as a
`Table`: a list of column names plus a list of rows, each row a list of
loosely-typed cells.  Cell values are text, integers, or the missing value
NaN; column names are assumed distinct (the loader produces a header row
of distinct names), so pandas label-based access coincides with the
positional access used here.
-/

/-- A pandas cell: a string, a number, or the missing value NaN. -/
inductive Cell where
  | str (s : String)
  | num (n : Int)
  | nan
deriving DecidableEq, Repr

/-- A row is the list of its cells, aligned with the table's columns. -/
abbrev Row := List Cell

/-- A DataFrame: ordered column names plus ordered rows. -/
structure Table where
  cols : List String
  rows : List Row
deriving DecidableEq, Repr

/-- Python `str.strip` whitespace class (the characters relevant here). -/
def isSpace (c : Char) : Bool :=
  c == ' ' || c == '\t' || c == '\n' || c == '\r' || c == '\x0b' || c == '\x0c'

/-- Drop trailing whitespace: reverse, drop leading whitespace, reverse. -/
def rdropSpace (l : List Char) : List Char :=
  (l.reverse.dropWhile isSpace).reverse

/-- Python `str.strip()` on a character list. -/
def stripL (l : List Char) : List Char :=
  rdropSpace (l.dropWhile isSpace)

/-- Python `str.strip()`. -/
def strip (s : String) : String :=
  String.mk (stripL s.data)

/-- Python `str.lower()` (ASCII, which covers every label used here). -/
def pyLower (s : String) : String :=
  String.mk (s.data.map Char.toLower)

/-- Python `str(v)` on a cell: strings unchanged, numbers printed, NaN prints
as `"nan"`. -/
def pyStr : Cell → String
  | .str s => s
  | .num n => toString n
  | .nan => "nan"

/-- Python `fillna("")` on one cell. -/
def fillnaEmpty : Cell → Cell
  | .nan => .str ""
  | c => c

/-- Python `re.sub(r'^..:', '', s)`: if the string starts with two non-newline
characters followed by a colon, drop those three characters (the anchored
pattern matches at most once). -/
def dropColonTag (l : List Char) : List Char :=
  match l with
  | a :: b :: c :: rest =>
    if c == ':' && a != '\n' && b != '\n' then rest else l
  | _ => l

/-- Python `s.split('/', 1)[0]`: the characters before the first slash. -/
def slashTrunc (l : List Char) : List Char :=
  l.takeWhile (fun c => c != '/')

/-- Scan for the lazy closing parenthesis of `re`'s `\(.*?\)`: the characters
after the first `')'`, provided no newline intervenes (`.` does not match a
newline). -/
def scanClose : List Char → Option (List Char)
  | [] => none
  | ')' :: rest => some rest
  | '\n' :: _ => none
  | _ :: rest => scanClose rest

/-- Worker for the regex `\(.*?\)` deletion, with enough fuel to consume the
whole input (each step strictly shortens the list, so `l.length` suffices). -/
def parenRemoveGo : Nat → List Char → List Char
  | 0, l => l
  | _ + 1, [] => []
  | fuel + 1, '(' :: rest =>
    match scanClose rest with
    | some rest' => parenRemoveGo fuel rest'
    | none => '(' :: parenRemoveGo fuel rest
  | fuel + 1, c :: rest => c :: parenRemoveGo fuel rest

/-- Python `re.sub(r'\(.*?\)', '', s)`: repeatedly delete each lazily matched
`( ... )` span, scanning left to right; a `'('` with no reachable `')'`
before a newline is kept verbatim. -/
def parenRemoveL (l : List Char) : List Char :=
  parenRemoveGo l.length l

/-- The `clean` closure of `transform_service_column`: drop a leading
two-character-plus-colon tag, truncate at the first slash, delete
parenthesized spans, and strip surrounding whitespace. -/
def clean (s : String) : String :=
  String.mk (stripL (parenRemoveL (slashTrunc (dropColonTag s.data))))

/-- The `transform_service_column` index of the label column. -/
def svcIdx (cols : List String) : Nat :=
  cols.indexOf "Service"

/-- The value of the `Service` column of a row. -/
def getSvc (cols : List String) (r : Row) : Cell :=
  r.getD (svcIdx cols) .nan

/-- The function `transform_service_column`: `df["Service"].fillna("").apply(clean)` —
replace the label cell of every row by its cleaned string. -/
def transform_service_column (t : Table) : Table :=
  ⟨t.cols, t.rows.map (fun r =>
    r.set (svcIdx t.cols) (.str (clean (pyStr (fillnaEmpty (getSvc t.cols r))))))⟩

/-- One replacement pass of `str.replace("Est.", "Estimated")`: substitute
every non-overlapping occurrence of `Est.` left to right. -/
def replaceEstL : List Char → List Char
  | 'E' :: 's' :: 't' :: '.' :: rest =>
    'E' :: 's' :: 't' :: 'i' :: 'm' :: 'a' :: 't' :: 'e' :: 'd' :: replaceEstL rest
  | c :: rest => c :: replaceEstL rest
  | [] => []

/-- Python `v.replace("Est.", "Estimated")` on a string. -/
def replaceEst (s : String) : String :=
  String.mk (replaceEstL s.data)

/-- The `applymap` closure of `replace_est`: replace on strings, leave every
other value unchanged. -/
def estCellMap : Cell → Cell
  | .str s => .str (replaceEst s)
  | c => c

/-- The function `replace_est`: rename `Est.` to `Estimated` in the (stripped) column
names and in every string cell value. -/
def replace_est (t : Table) : Table :=
  ⟨t.cols.map (fun c => strip (replaceEst c)),
   t.rows.map (fun r => r.map estCellMap)⟩

/-- Python `s.strip().lower() == "total"` on a string. -/
def isTotalStr (s : String) : Bool :=
  pyLower (strip s) == "total"

/-- Python `str(svc).strip().lower() == "total"` as used by `split_tables`: the raw
cell is first converted with `str`. -/
def isTotalRowSeg (cols : List String) (r : Row) : Bool :=
  isTotalStr (pyStr (getSvc cols r))

/-- Pandas `df["Service"].str.strip().str.lower() == "total"` as used by
`calculate_and_insert_totals`: the `.str` accessor yields NaN on non-string
cells, and NaN never equals `"total"`. -/
def isTotalRowMask (cols : List String) (r : Row) : Bool :=
  match getSvc cols r with
  | .str s => isTotalStr s
  | _ => false

/-- The `drop_keys` footer sentinel set. -/
def drop_keys : List String :=
  ["total",
   "est. conversions", "estimated conversions",
   "est. impressions", "estimated impressions"]

/-- Pandas `df["Service"].str.strip().str.lower().isin(drop_keys)`: again via the
`.str` accessor, so non-string cells never match. -/
def isFooterRow (cols : List String) (r : Row) : Bool :=
  match getSvc cols r with
  | .str s => drop_keys.contains (pyLower (strip s))
  | _ => false

/-- One column of the fresh Total row of `calculate_and_insert_totals`:
the dict starts the column at `""` (`"Total"` for `Service`), then the
original footer's value overwrites it when that value is not NaN. -/
def totalCell (cols : List String) (orig : Option Row) (c : String) : Cell :=
  let init : Cell := if c == "Service" then .str "Total" else .str ""
  match orig with
  | none => init
  | some o =>
    match o.getD (cols.indexOf c) Cell.nan with
    | .nan => init
    | v => v

/-- Build the fresh Total row of `calculate_and_insert_totals`, one cell per
column. -/
def buildTotal (cols : List String) (orig : Option Row) : Row :=
  cols.map (totalCell cols orig)

/-- The function `calculate_and_insert_totals`: capture the first existing `total` row,
drop every legacy footer row, and append the rebuilt Total row. -/
def calculate_and_insert_totals (t : Table) : Table :=
  let orig := t.rows.find? (fun r => isTotalRowMask t.cols r)
  let kept := t.rows.filter (fun r => !isFooterRow t.cols r)
  ⟨t.cols, kept ++ [buildTotal t.cols orig]⟩

/-- A named sub-table produced by `split_tables`. -/
structure Segment where
  name : String
  df : Table
deriving DecidableEq, Repr

/-- The generator filter of `split_tables`' naming rule: a value qualifies
when it is truthy and does not strip-lower to `"service"`.  After
`transform_service_column` every label cell is a string, for which Python
truthiness is non-emptiness; on a truthy non-string the source's
`x.strip()` would raise, which cannot happen in the pipeline, so
non-strings yield no candidate here. -/
def nameCandidate : Cell → Option String
  | .str s => if s ≠ "" ∧ pyLower (strip s) ≠ "service" then some s else none
  | _ => none

/-- A segment's name: the first qualifying label value, else `"Table k"`
where `k - 1` segments were already emitted. -/
def segName (cols : List String) (rs : List Row) (k : Nat) : String :=
  match (rs.filterMap (fun r => nameCandidate (getSvc cols r))).head? with
  | some n => n
  | none => "Table " ++ toString k

/-- The chunking loop of `split_tables`: accumulate rows, close a chunk at
(and including) every `total`-labelled row, and emit the pending rows as a
trailing chunk when non-empty. -/
def chunksGo (cols : List String) (cur : List Row) : List Row → List (List Row)
  | [] => if cur.isEmpty then [] else [cur]
  | r :: rest =>
    if isTotalRowSeg cols r then (cur ++ [r]) :: chunksGo cols [] rest
    else chunksGo cols (cur ++ [r]) rest

/-- The function `split_tables`: split at `total` rows and name each chunk. -/
def split_tables (t : Table) : List Segment :=
  (chunksGo t.cols [] t.rows).enum.map
    (fun p => { name := segName t.cols p.2 (p.1 + 1), df := ⟨t.cols, p.2⟩ })

/-- The markup appended by the hyperlink step of `main`. -/
def linkMarkup (url : String) : String :=
  " – <link href=\"" ++ url ++ "\">link</link>"

/-- The hyperlink step of `main`: when the column exists and the row index
is in range, append the link markup to the cell's text; otherwise leave the
table untouched. -/
def annotate (t : Table) (col : String) (row : Nat) (url : String) : Table :=
  if col ∈ t.cols ∧ row < t.rows.length then
    let j := t.cols.indexOf col
    let oldRow := t.rows.getD row []
    ⟨t.cols,
     t.rows.set row
       (oldRow.set j (.str (pyStr (oldRow.getD j .nan) ++ linkMarkup url)))⟩
  else t

/-- The concrete segment of the spec's summation example, with original
footer value `v` in the summation column. -/
def sumExample (v : Int) : Table :=
  ⟨["Service", "Monthly Amount"],
   [[.str "A", .num 10], [.str "B", .num 20], [.str "C", .str "bad"],
    [.str "D", .str ""], [.str "Total", .num 999], [.str "E", .num v]]⟩

/-- A segment whose original footer spells its label `"TOTAL"`. -/
def spellExample : Table :=
  ⟨["Service", "X"], [[.str "a", .num 1], [.str "TOTAL", .num 7]]⟩

/-- A segment with two `total` footers carrying different values. -/
def twoTotalsExample : Table :=
  ⟨["Service", "X"], [[.str "Total", .num 1], [.str "Total", .num 2]]⟩

/-- Whether the exact token `Est.` occurs anywhere in the text. -/
def hasEst : List Char → Bool
  | 'E' :: 's' :: 't' :: '.' :: _ => true
  | _ :: rest => hasEst rest
  | [] => false

/-- Whether `re.sub(r'^..:', '', ·)` matches the start of the text. -/
def colonPatMatchesL : List Char → Bool
  | a :: b :: c :: _ => c == ':' && a != '\n' && b != '\n'
  | _ => false

/-- Whether the leading two-character-plus-colon pattern matches a string. -/
def colonPatMatches (s : String) : Bool :=
  colonPatMatchesL s.data

/-- No parenthesized span is matchable anywhere in the text: every suffix
starting with `'('` has no lazily reachable `')'`. -/
def goodParen : List Char → Bool
  | [] => true
  | '(' :: rest => (scanClose rest).isNone && goodParen rest
  | _ :: rest => goodParen rest

/-! ### Theorems -/

theorem scanClose_length : ∀ {l r : List Char}, scanClose l = some r → r.length ≤ l.length := by
  intro l
  induction l using scanClose.induct with
  | case1 => intro r h; simp [scanClose] at h
  | case2 rest => intro r h; simp [scanClose] at h; subst h; simp
  | case3 rest => intro r h; simp [scanClose] at h
  | case4 c rest h1 h2 ih =>
    intro r h
    rw [show scanClose (c :: rest) = scanClose rest from by
      conv_lhs => unfold scanClose
      simp_all] at h
    exact Nat.le_trans (ih h) (Nat.le_succ _)

theorem string_mk_data (s : String) : String.mk s.data = s := by
  cases s
  rfl

/-- Accessing any column of a row built by mapping over the columns yields
the mapped value of that column. -/
theorem getD_map_indexOf (cols : List String) (f : String → Cell) (c : String)
    (h : c ∈ cols) :
    (cols.map f).getD (cols.indexOf c) Cell.nan = f c := by
  have hlt : cols.indexOf c < cols.length := List.indexOf_lt_length.mpr h
  have hlt' : cols.indexOf c < (cols.map f).length := by simpa using hlt
  rw [List.getD_eq_getElem _ _ hlt']
  rw [List.getElem_map]
  congr 1
  have := @List.indexOf_get _ _ c cols hlt
  simpa [List.get_eq_getElem] using this

/-- The label cell of the rebuilt Total row when no footer was captured. -/
theorem getSvc_buildTotal_none (cols : List String) (hS : "Service" ∈ cols) :
    getSvc cols (buildTotal cols none) = Cell.str "Total" := by
  unfold getSvc svcIdx buildTotal
  rw [getD_map_indexOf cols _ "Service" hS]
  rfl

/-- The label cell of the rebuilt Total row when a footer was captured. -/
theorem getSvc_buildTotal_some (cols : List String) (o : Row)
    (hS : "Service" ∈ cols) :
    getSvc cols (buildTotal cols (some o))
      = (match getSvc cols o with
         | .nan => Cell.str "Total"
         | v => v) := by
  unfold getSvc svcIdx buildTotal
  rw [getD_map_indexOf cols _ "Service" hS]
  rfl

/-- The rebuilt Total row is itself recognised as a `total` row whenever the
captured footer (if any) was. -/
theorem isTotalRowMask_buildTotal (cols : List String) (orig : Option Row)
    (hS : "Service" ∈ cols)
    (h : ∀ o, orig = some o → isTotalRowMask cols o = true) :
    isTotalRowMask cols (buildTotal cols orig) = true := by
  cases orig with
  | none =>
    unfold isTotalRowMask
    rw [getSvc_buildTotal_none cols hS]
    show isTotalStr "Total" = true
    decide
  | some o =>
    have ho := h o rfl
    unfold isTotalRowMask at ho ⊢
    rw [getSvc_buildTotal_some cols o hS]
    cases hc : getSvc cols o with
    | str s => rw [hc] at ho; simpa using ho
    | num n => rw [hc] at ho; simp at ho
    | nan => rw [hc] at ho; simp at ho

/-- A `total` row is a footer row. -/
theorem isFooterRow_of_isTotalRowMask (cols : List String) (r : Row)
    (h : isTotalRowMask cols r = true) : isFooterRow cols r = true := by
  unfold isTotalRowMask at h
  unfold isFooterRow
  cases hc : getSvc cols r with
  | str s =>
    rw [hc] at h
    unfold isTotalStr at h
    have hts : pyLower (strip s) = "total" := by simpa using h
    simp [hts, drop_keys]
  | num n => rw [hc] at h; simp at h
  | nan => rw [hc] at h; simp at h

/-- C1 counterexample: on the spec's own example segment — data rows with
`[10, 20, "bad", ""]` in the summation column plus an original footer whose
value there is `999` — the reconciled Total Row's summation value is the
copied `999`, not the recomputed sum `30`. -/
theorem reconcile_sum_counterexample :
    ((calculate_and_insert_totals (sumExample 0)).rows.getLast?.map
        (fun r => r.getD 1 Cell.nan)) = some (Cell.num 999)
    ∧ ((calculate_and_insert_totals (sumExample 0)).rows.getLast?.map
        (fun r => r.getD 1 Cell.nan)) ≠ some (Cell.num 30) := by
  constructor
  · rfl
  · decide

/-- C1 (amended): reconciliation never sums the data rows; each field of the
rebuilt Total Row is copied from the first original `total` footer.  For the
spec's `[10, 20, "bad", ""]` segment with original footer value `v`, the
reconciled summation value is `v` — `30` only if the footer already said
`30`. -/
theorem reconcile_carries_footer_value (v : Int) :
    ((calculate_and_insert_totals
        ⟨["Service", "Monthly Amount"],
         [[.str "A", .num 10], [.str "B", .num 20], [.str "C", .str "bad"],
          [.str "D", .str ""], [.str "Total", .num v]]⟩).rows.getLast?.map
        (fun r => r.getD 1 Cell.nan)) = some (Cell.num v) := rfl

/-- C3 counterexample: the appended Total Row's label is copied verbatim from
the original footer (`"TOTAL"` here), so it does not equal `"Total"`. -/
theorem reconcile_label_spelling_counterexample :
    ((calculate_and_insert_totals spellExample).rows.getLast?.map
        (fun r => getSvc spellExample.cols r)) = some (Cell.str "TOTAL")
    ∧ Cell.str "TOTAL" ≠ Cell.str "Total" := by
  constructor
  · rfl
  · decide

/-- C3 (amended): reconciliation outputs the surviving data rows followed by
exactly one Total Row; no footer-sentinel row survives among the data rows;
and the Total Row's label strips-and-lowercases to `"total"` (it is the
original footer's verbatim spelling when one existed, `"Total"` otherwise). -/
theorem reconcile_shape (t : Table) (hS : "Service" ∈ t.cols) :
    ∃ T : Row,
      (calculate_and_insert_totals t).rows
        = t.rows.filter (fun r => !isFooterRow t.cols r) ++ [T]
      ∧ isTotalRowMask t.cols T = true
      ∧ ∀ r ∈ t.rows.filter (fun r => !isFooterRow t.cols r),
          isFooterRow t.cols r = false := by
  refine ⟨buildTotal t.cols (t.rows.find? (fun r => isTotalRowMask t.cols r)),
    rfl, ?_, ?_⟩
  · refine isTotalRowMask_buildTotal t.cols _ hS ?_
    intro o ho
    exact List.find?_some ho
  · intro r hr
    have := List.of_mem_filter hr
    simpa using this

/-- Witness for `reconcile_shape` at a concrete segment. -/
theorem reconcile_shape_witness :
    ("Service" ∈ spellExample.cols)
    ∧ ∃ T : Row,
      (calculate_and_insert_totals spellExample).rows
        = spellExample.rows.filter (fun r => !isFooterRow spellExample.cols r) ++ [T]
      ∧ isTotalRowMask spellExample.cols T = true
      ∧ ∀ r ∈ spellExample.rows.filter (fun r => !isFooterRow spellExample.cols r),
          isFooterRow spellExample.cols r = false :=
  ⟨by decide, reconcile_shape spellExample (by decide)⟩

/-- C5 counterexample: with two `total` footer rows valued `1` then `2`,
reconciliation copies the carry-forward value `1` of the first footer, not
`2` from the last. -/
theorem reconcile_first_footer_counterexample :
    ((calculate_and_insert_totals twoTotalsExample).rows.getLast?.map
        (fun r => r.getD 1 Cell.nan)) = some (Cell.num 1)
    ∧ ((calculate_and_insert_totals twoTotalsExample).rows.getLast?.map
        (fun r => r.getD 1 Cell.nan)) ≠ some (Cell.num 2) := by
  constructor
  · rfl
  · decide

/-- C5 (amended): when several `total` footer rows exist, reconciliation
captures the carry-forward column values from the first such row in the
input, not the last. -/
theorem reconcile_captures_first_total (cols : List String)
    (pre mid suf : List Row) (r1 r2 : Row)
    (h1 : isTotalRowMask cols r1 = true) (h2 : isTotalRowMask cols r2 = true)
    (hpre : ∀ r ∈ pre, isTotalRowMask cols r = false) :
    (calculate_and_insert_totals ⟨cols, pre ++ r1 :: (mid ++ r2 :: suf)⟩).rows.getLast?
      = some (buildTotal cols (some r1)) := by
  have hfind : (pre ++ r1 :: (mid ++ r2 :: suf)).find?
      (fun r => isTotalRowMask cols r) = some r1 := by
    rw [List.find?_append]
    have hnone : pre.find? (fun r => isTotalRowMask cols r) = none :=
      List.find?_eq_none.mpr (by intro x hx; simp [hpre x hx])
    rw [hnone]
    simp [List.find?_cons, h1]
  show (List.filter _ _ ++ [buildTotal cols _]).getLast? = _
  rw [hfind, List.getLast?_concat]

/-- Witness for `reconcile_captures_first_total` at a concrete segment. -/
theorem reconcile_captures_first_total_witness :
    (isTotalRowMask ["Service", "X"] [Cell.str "Total", Cell.num 1] = true)
    ∧ (isTotalRowMask ["Service", "X"] [Cell.str "Total", Cell.num 2] = true)
    ∧ (calculate_and_insert_totals
        ⟨["Service", "X"],
         [] ++ [Cell.str "Total", Cell.num 1] :: ([] ++ [Cell.str "Total", Cell.num 2] :: [])⟩).rows.getLast?
      = some (buildTotal ["Service", "X"] (some [Cell.str "Total", Cell.num 1])) :=
  ⟨by decide, by decide,
   reconcile_captures_first_total ["Service", "X"] [] [] []
     [Cell.str "Total", Cell.num 1] [Cell.str "Total", Cell.num 2]
     (by decide) (by decide) (by intro r hr; simp at hr)⟩

/-- C10: when the input has no `total`-labelled row at all, reconciliation
appends exactly one Total Row whose `Service` column is `"Total"` and whose
every other column is the empty string. -/
theorem reconcile_no_total_row (t : Table) (hS : "Service" ∈ t.cols)
    (h : ∀ r ∈ t.rows, isTotalRowMask t.cols r = false) :
    (calculate_and_insert_totals t).rows
      = t.rows.filter (fun r => !isFooterRow t.cols r)
        ++ [t.cols.map (fun c => if c == "Service" then Cell.str "Total" else Cell.str "")] := by
  have hf : t.rows.find? (fun r => isTotalRowMask t.cols r) = none :=
    List.find?_eq_none.mpr (by intro x hx; simp [h x hx])
  show (List.filter _ _ ++ [buildTotal t.cols _]) = _
  rw [hf]
  rfl

/-- Witness for `reconcile_no_total_row` at a concrete segment. -/
theorem reconcile_no_total_row_witness :
    ("Service" ∈ (["Service", "X"] : List String))
    ∧ (∀ r ∈ [[Cell.str "A", Cell.num 1]], isTotalRowMask ["Service", "X"] r = false)
    ∧ (calculate_and_insert_totals ⟨["Service", "X"], [[Cell.str "A", Cell.num 1]]⟩).rows
      = [[Cell.str "A", Cell.num 1],
         [Cell.str "Total", Cell.str ""]] :=
  ⟨by decide, by decide,
   by
    have := reconcile_no_total_row ⟨["Service", "X"], [[Cell.str "A", Cell.num 1]]⟩
      (by decide) (by decide)
    simpa using this⟩

/-- Every cell of the rebuilt Total row is a real value, never NaN. -/
theorem totalCell_ne_nan (cols : List String) (orig : Option Row) (c : String) :
    totalCell cols orig c ≠ Cell.nan := by
  have hinit : (if c == "Service" then Cell.str "Total" else Cell.str "") ≠ Cell.nan := by
    split <;> simp
  unfold totalCell
  cases orig with
  | none => simpa using hinit
  | some o =>
    dsimp only
    rcases hv : o.getD (cols.indexOf c) Cell.nan with s | n | _ <;>
      simp [hv] <;> simpa using hinit

/-- Reading back a column of the rebuilt Total row. -/
theorem getD_buildTotal (cols : List String) (orig : Option Row) (c : String)
    (hc : c ∈ cols) :
    (buildTotal cols orig).getD (cols.indexOf c) Cell.nan = totalCell cols orig c :=
  getD_map_indexOf cols _ c hc

/-- Rebuilding a Total row from an already rebuilt Total row changes no cell:
every cell is non-NaN, so it is copied verbatim. -/
theorem totalCell_some_buildTotal (cols : List String) (orig : Option Row)
    (c : String) (hc : c ∈ cols) :
    totalCell cols (some (buildTotal cols orig)) c = totalCell cols orig c := by
  conv_lhs => unfold totalCell
  dsimp only
  rw [getD_buildTotal cols orig c hc]
  have hnn := totalCell_ne_nan cols orig c
  rcases hv : totalCell cols orig c with s | n | _
  · simp [hv]
  · simp [hv]
  · exact absurd hv hnn

/-- Rebuilding from a rebuilt Total row is the identity. -/
theorem buildTotal_idem (cols : List String) (orig : Option Row) :
    buildTotal cols (some (buildTotal cols orig)) = buildTotal cols orig :=
  List.map_congr_left (fun c hc => totalCell_some_buildTotal cols orig c hc)

/-- C2: reconciliation is idempotent — reconciling an already reconciled
table reproduces the same data rows and the same Total Row (the label column
must exist, as the source accesses `df["Service"]` unconditionally). -/
theorem reconcile_idempotent (t : Table) (hS : "Service" ∈ t.cols) :
    calculate_and_insert_totals (calculate_and_insert_totals t)
      = calculate_and_insert_totals t := by
  obtain ⟨cols, rows⟩ := t
  have hS' : "Service" ∈ cols := hS
  set orig := rows.find? (fun r => isTotalRowMask cols r) with horig
  set kept := rows.filter (fun r => !isFooterRow cols r) with hkept
  set T := buildTotal cols orig with hT
  have hTmask : isTotalRowMask cols T = true := by
    rw [hT]
    refine isTotalRowMask_buildTotal cols orig hS' ?_
    intro o ho
    exact List.find?_some (horig ▸ ho)
  have hkeptfoot : ∀ r ∈ kept, isFooterRow cols r = false := by
    intro r hr
    rw [hkept] at hr
    simpa using List.of_mem_filter hr
  have hinner : calculate_and_insert_totals ⟨cols, rows⟩ = ⟨cols, kept ++ [T]⟩ := rfl
  rw [hinner]
  have hfind2 : (kept ++ [T]).find? (fun r => isTotalRowMask cols r) = some T := by
    rw [List.find?_append]
    have h1 : kept.find? (fun r => isTotalRowMask cols r) = none := by
      refine List.find?_eq_none.mpr ?_
      intro x hx htt
      have hfoot := isFooterRow_of_isTotalRowMask cols x (by simpa using htt)
      rw [hkeptfoot x hx] at hfoot
      exact Bool.false_ne_true hfoot
    rw [h1]
    simp [List.find?_cons, hTmask]
  have hfilter2 : (kept ++ [T]).filter (fun r => !isFooterRow cols r) = kept := by
    rw [List.filter_append]
    have h2 : kept.filter (fun r => !isFooterRow cols r) = kept :=
      List.filter_eq_self.mpr (fun a ha => by simp [hkeptfoot a ha])
    have hTfoot : isFooterRow cols T = true := isFooterRow_of_isTotalRowMask cols T hTmask
    rw [h2]
    simp [hTfoot]
  show (⟨cols, (kept ++ [T]).filter (fun r => !isFooterRow cols r)
        ++ [buildTotal cols ((kept ++ [T]).find? (fun r => isTotalRowMask cols r))]⟩ : Table)
      = ⟨cols, kept ++ [T]⟩
  rw [hfind2, hfilter2]
  have : buildTotal cols (some T) = T := by
    rw [hT]
    exact buildTotal_idem cols orig
  rw [this]

/-- Witness for `reconcile_idempotent` at a concrete segment. -/
theorem reconcile_idempotent_witness :
    ("Service" ∈ spellExample.cols)
    ∧ calculate_and_insert_totals (calculate_and_insert_totals spellExample)
        = calculate_and_insert_totals spellExample :=
  ⟨by decide, reconcile_idempotent spellExample (by decide)⟩

/-- The chunks of `split_tables` concatenate back to the accumulated prefix
followed by the remaining rows: no row is duplicated or dropped. -/
theorem chunksGo_flatten (cols : List String) :
    ∀ (rows : List Row) (cur : List Row),
      (chunksGo cols cur rows).flatten = cur ++ rows := by
  intro rows
  induction rows with
  | nil =>
    intro cur
    by_cases hc : cur.isEmpty
    · simp [chunksGo, hc, List.isEmpty_iff.mp hc]
    · simp [chunksGo, hc]
  | cons r rest ih =>
    intro cur
    by_cases hr : isTotalRowSeg cols r
    · simp [chunksGo, hr, ih]
    · simp [chunksGo, hr, ih]

/-- The number of chunks: one per `total` sentinel row, plus one when
non-sentinel rows trail (the pending chunk, non-empty at the end exactly
when the last row is not a sentinel, or when nothing was consumed but the
accumulator was non-empty). -/
theorem chunksGo_length (cols : List String) :
    ∀ (rows : List Row) (cur : List Row),
      (chunksGo cols cur rows).length
        = rows.countP (fun r => isTotalRowSeg cols r)
          + (match rows.getLast? with
             | none => if cur.isEmpty then 0 else 1
             | some r => if isTotalRowSeg cols r then 0 else 1) := by
  intro rows
  induction rows with
  | nil =>
    intro cur
    by_cases hc : cur.isEmpty <;> simp [chunksGo, hc]
  | cons r rest ih =>
    intro cur
    by_cases hr : isTotalRowSeg cols r
    · have hstep : chunksGo cols cur (r :: rest) = (cur ++ [r]) :: chunksGo cols [] rest := by
        simp [chunksGo, hr]
      rw [hstep, List.length_cons, ih [], List.countP_cons]
      cases rest with
      | nil => simp [hr]
      | cons a l =>
        rw [List.getLast?_cons_cons]
        rcases hlast : (a :: l).getLast? with _ | r'
        · simp at hlast
        · simp [hr]
          omega
    · have hstep : chunksGo cols cur (r :: rest) = chunksGo cols (cur ++ [r]) rest := by
        simp [chunksGo, hr]
      rw [hstep, ih (cur ++ [r]), List.countP_cons]
      cases rest with
      | nil => simp [hr]
      | cons a l =>
        rw [List.getLast?_cons_cons]
        rcases hlast : (a :: l).getLast? with _ | r'
        · simp at hlast
        · simp [hr]

/-- C4: segmentation partitions the table exactly — concatenating all
segments' rows in order reproduces the input rows — and the number of
segments is the number of `total` sentinel rows, plus one exactly when rows
follow the last sentinel (in particular `k` when the table's last row is a
sentinel, and zero for an empty table). -/
theorem split_tables_partition_count (t : Table) :
    ((split_tables t).map (fun s => s.df.rows)).flatten = t.rows
    ∧ (split_tables t).length
        = t.rows.countP (fun r => isTotalRowSeg t.cols r)
          + (match t.rows.getLast? with
             | none => 0
             | some r => if isTotalRowSeg t.cols r then 0 else 1) := by
  constructor
  · have hmap : (split_tables t).map (fun s => s.df.rows)
        = chunksGo t.cols [] t.rows := by
      unfold split_tables
      rw [List.map_map]
      exact List.enum_map_snd _
    rw [hmap, chunksGo_flatten]
    simp
  · have hlen : (split_tables t).length = (chunksGo t.cols [] t.rows).length := by
      unfold split_tables
      rw [List.length_map, List.enum_length]
    rw [hlen, chunksGo_length]
    rcases hlast : t.rows.getLast? with _ | r <;> simp

/-- C6 counterexample: with rows labelled `A`, `Total`, `Total`, the second
segment contains only the total row, but its name is the total row's own
label `"Total"`, not the synthesized fallback `"Table 2"`: the total label is
non-empty and is not the header token, so the naming rule picks it. -/
theorem consecutive_totals_name_counterexample :
    ((split_tables ⟨["Service"], [[Cell.str "A"], [Cell.str "Total"], [Cell.str "Total"]]⟩)[1]?.map
        Segment.name) = some "Total"
    ∧ ((split_tables ⟨["Service"], [[Cell.str "A"], [Cell.str "Total"], [Cell.str "Total"]]⟩)[1]?.map
        Segment.name) ≠ some "Table 2" := by
  constructor
  · rfl
  · decide

/-- Consecutive sentinel rows put the second one alone in its own chunk. -/
theorem chunksGo_consecutive (cols : List String) (a b : Row) (suf : List Row)
    (ha : isTotalRowSeg cols a = true) (hb : isTotalRowSeg cols b = true) :
    ∀ (pre : List Row) (cur : List Row),
      ∃ i : Nat, (chunksGo cols cur (pre ++ a :: b :: suf))[i]? = some [b] := by
  intro pre
  induction pre with
  | nil =>
    intro cur
    refine ⟨1, ?_⟩
    simp [chunksGo, ha, hb]
  | cons p ps ih =>
    intro cur
    by_cases hp : isTotalRowSeg cols p
    · obtain ⟨i, hi⟩ := ih []
      exact ⟨i + 1, by simpa [chunksGo, hp] using hi⟩
    · obtain ⟨i, hi⟩ := ih (cur ++ [p])
      exact ⟨i, by simpa [chunksGo, hp] using hi⟩

/-- C6 (amended): two consecutive `total` rows with no data rows between
them yield a segment containing only the second total row — but that
segment's name is the total row's own label text (which is non-empty and not
the header token, so the naming rule always picks it), never the synthesized
positional fallback. -/
theorem consecutive_totals_segment (cols : List String) (pre suf : List Row)
    (a b : Row) (s : String)
    (ha : isTotalRowSeg cols a = true)
    (hb : getSvc cols b = Cell.str s) (hs : isTotalStr s = true) :
    ∃ i : Nat, (split_tables ⟨cols, pre ++ a :: b :: suf⟩)[i]?
      = some { name := s, df := ⟨cols, [b]⟩ } := by
  have hb' : isTotalRowSeg cols b = true := by
    unfold isTotalRowSeg
    rw [hb]
    exact hs
  obtain ⟨i, hi⟩ := chunksGo_consecutive cols a b suf ha hb' pre []
  refine ⟨i, ?_⟩
  have hse : s ≠ "" := by
    intro hh
    rw [hh] at hs
    exact absurd hs (by decide)
  have heq : pyLower (strip s) = "total" := by simpa [isTotalStr] using hs
  have hsv : pyLower (strip s) ≠ "service" := by
    rw [heq]
    decide
  have hname : segName cols [b] (i + 1) = s := by
    unfold segName
    simp [hb, nameCandidate, hse, hsv]
  unfold split_tables
  rw [List.getElem?_map, List.getElem?_enum, hi]
  simp [hname]

/-- Witness for `consecutive_totals_segment` at a concrete table. -/
theorem consecutive_totals_segment_witness :
    (isTotalRowSeg ["Service"] [Cell.str "Total"] = true)
    ∧ (getSvc ["Service"] [Cell.str "Total"] = Cell.str "Total")
    ∧ (isTotalStr "Total" = true)
    ∧ ∃ i : Nat, (split_tables ⟨["Service"],
        [[Cell.str "A"]] ++ [Cell.str "Total"] :: [Cell.str "Total"] :: []⟩)[i]?
      = some { name := "Total", df := ⟨["Service"], [[Cell.str "Total"]]⟩ } :=
  ⟨by decide, by decide, by decide,
   consecutive_totals_segment ["Service"] [[Cell.str "A"]] [] [Cell.str "Total"]
     [Cell.str "Total"] "Total" (by decide) (by decide) (by decide)⟩

/-- C9: with an existing column and an in-range row index, annotation
rewrites only the targeted cell, appending the separator-plus-hyperlink
markup after the cell's existing text (so the original text is a prefix,
hence a substring, of the result); with a missing column or an out-of-range
row index it returns the table unchanged. -/
theorem annotate_spec (t : Table) (col : String) (row : Nat) (url : String) :
    (col ∈ t.cols ∧ row < t.rows.length →
       (annotate t col row url).cols = t.cols
       ∧ (annotate t col row url).rows
           = t.rows.set row
               ((t.rows.getD row []).set (t.cols.indexOf col)
                 (.str (pyStr ((t.rows.getD row []).getD (t.cols.indexOf col) Cell.nan)
                        ++ linkMarkup url)))
       ∧ (pyStr ((t.rows.getD row []).getD (t.cols.indexOf col) Cell.nan)).data
           <+: (pyStr ((t.rows.getD row []).getD (t.cols.indexOf col) Cell.nan)
                ++ linkMarkup url).data)
    ∧ (¬(col ∈ t.cols ∧ row < t.rows.length) → annotate t col row url = t) := by
  constructor
  · intro h
    refine ⟨?_, ?_, ?_⟩
    · simp [annotate, h]
    · simp [annotate, h]
    · exact ⟨(linkMarkup url).data, (String.data_append _ _).symm⟩
  · intro h
    simp [annotate, h]

/-- Witness for `annotate_spec`: a valid call appends the markup to
`"Google Ads"`, and a call with an out-of-range row is the identity. -/
theorem annotate_spec_witness :
    (("Service" ∈ (⟨["Service"], [[Cell.str "Google Ads"]]⟩ : Table).cols
        ∧ 0 < (⟨["Service"], [[Cell.str "Google Ads"]]⟩ : Table).rows.length)
      ∧ (annotate ⟨["Service"], [[Cell.str "Google Ads"]]⟩ "Service" 0 "http://x").rows
          = [[Cell.str ("Google Ads" ++ linkMarkup "http://x")]])
    ∧ (¬(("Service" : String) ∈ (⟨["Service"], [[Cell.str "Google Ads"]]⟩ : Table).cols
          ∧ 5 < (⟨["Service"], [[Cell.str "Google Ads"]]⟩ : Table).rows.length)
      ∧ annotate ⟨["Service"], [[Cell.str "Google Ads"]]⟩ "Service" 5 "http://x"
          = ⟨["Service"], [[Cell.str "Google Ads"]]⟩) := by
  constructor
  · refine ⟨by decide, ?_⟩
    have h := (annotate_spec ⟨["Service"], [[Cell.str "Google Ads"]]⟩ "Service" 0 "http://x").1
      (by decide)
    rw [h.2.1]
    rfl
  · refine ⟨by decide, ?_⟩
    exact (annotate_spec ⟨["Service"], [[Cell.str "Google Ads"]]⟩ "Service" 5 "http://x").2
      (by decide)

/-- Text without an `Est.` occurrence is left unchanged by the replacement. -/
theorem replaceEstL_of_not_hasEst : ∀ l : List Char, hasEst l = false → replaceEstL l = l := by
  intro l
  induction l using hasEst.induct with
  | case1 rest => intro h; simp [hasEst] at h
  | case2 c rest hne ih =>
    intro h
    rw [show hasEst (c :: rest) = hasEst rest from by
      conv_lhs => unfold hasEst
      simp_all] at h
    rw [show replaceEstL (c :: rest) = c :: replaceEstL rest from by
      conv_lhs => unfold replaceEstL
      simp_all, ih h]
  | case3 => intro h; rfl

/-- C8: `replace_est` replaces the exact token `Est.` with `Estimated` in
every (stripped) column name and in every string cell, leaves non-string
cells unchanged, and changes nothing that contains no `Est.` occurrence; in
particular both a column named `Est. Conversions` and a cell valued
`Est. Conversions` become `Estimated Conversions`. -/
theorem replace_est_spec (t : Table) :
    (replace_est t).cols = t.cols.map (fun c => strip (replaceEst c))
    ∧ (replace_est t).rows = t.rows.map (fun r => r.map estCellMap)
    ∧ estCellMap (.str "Est. Conversions") = .str "Estimated Conversions"
    ∧ strip (replaceEst "Est. Conversions") = "Estimated Conversions"
    ∧ (∀ n : Int, estCellMap (.num n) = .num n)
    ∧ estCellMap Cell.nan = Cell.nan
    ∧ (∀ s : String, hasEst s.data = false → replaceEst s = s) := by
  refine ⟨rfl, rfl, by decide, by decide, fun n => rfl, rfl, ?_⟩
  intro s hs
  cases s with
  | mk d =>
    unfold replaceEst
    rw [replaceEstL_of_not_hasEst d hs]

/-- Witness for `replace_est_spec`, discharging the no-occurrence premise at
a concrete string. -/
theorem replace_est_spec_witness :
    estCellMap (.str "Est. Conversions") = .str "Estimated Conversions"
    ∧ hasEst "Impressions".data = false
    ∧ replaceEst "Impressions" = "Impressions" :=
  ⟨(replace_est_spec ⟨[], []⟩).2.2.1, by decide,
   (replace_est_spec ⟨[], []⟩).2.2.2.2.2.2 "Impressions" (by decide)⟩

/-- C7 counterexample: cleaning is not idempotent — on `"ab:cd:e"` the first
pass strips one leading two-character-plus-colon tag, exposing a second one
that only the next pass strips. -/
theorem clean_not_idempotent_counterexample :
    clean (clean "ab:cd:e") ≠ clean "ab:cd:e"
    ∧ clean "ab:cd:e" = "cd:e"
    ∧ clean (clean "ab:cd:e") = "e" := by
  refine ⟨by decide, by decide, by decide⟩

/-- No occurrence of the colon pattern means the tag removal is a no-op. -/
theorem dropColonTag_eq_self (l : List Char) (h : colonPatMatchesL l = false) :
    dropColonTag l = l := by
  rcases l with _ | ⟨a, _ | ⟨b, _ | ⟨c, rest⟩⟩⟩ <;>
    simp_all [colonPatMatchesL, dropColonTag]

/-- The slash never survives truncation at the first slash. -/
theorem slash_not_mem_slashTrunc (l : List Char) : '/' ∉ slashTrunc l := by
  intro h
  have := List.mem_takeWhile_imp h
  simp at this

/-- Truncation at the first slash is a no-op on slash-free text. -/
theorem slashTrunc_eq_self (l : List Char) (h : '/' ∉ l) : slashTrunc l = l := by
  refine List.takeWhile_eq_self_iff.mpr ?_
  intro x hx
  simp only [bne_iff_ne, ne_eq, decide_eq_true_eq]
  intro hxe
  exact h (hxe ▸ hx)

/-- Characters surviving the lazy scan were already in the input. -/
theorem scanClose_mem : ∀ {l r : List Char}, scanClose l = some r → ∀ c ∈ r, c ∈ l := by
  intro l
  induction l using scanClose.induct with
  | case1 => intro r h; simp [scanClose] at h
  | case2 rest => intro r h c hc; simp [scanClose] at h; subst h; exact List.mem_cons_of_mem _ hc
  | case3 rest => intro r h; simp [scanClose] at h
  | case4 c0 rest h1 h2 ih =>
    intro r h c hc
    rw [show scanClose (c0 :: rest) = scanClose rest from by
      conv_lhs => unfold scanClose
      simp_all] at h
    exact List.mem_cons_of_mem _ (ih h c hc)

/-- Characters surviving the paren deletion were already in the input. -/
theorem mem_parenRemoveGo :
    ∀ (fuel : Nat) (l : List Char) (c : Char), c ∈ parenRemoveGo fuel l → c ∈ l := by
  intro fuel l
  induction fuel, l using parenRemoveGo.induct with
  | case1 l => intro c h; simpa [parenRemoveGo] using h
  | case2 fuel => intro c h; simpa [parenRemoveGo] using h
  | case3 fuel rest rest' hs ih =>
    intro c h
    rw [show parenRemoveGo (fuel + 1) ('(' :: rest) = parenRemoveGo fuel rest' from by
      conv_lhs => unfold parenRemoveGo
      simp [hs]] at h
    exact List.mem_cons_of_mem _ (scanClose_mem hs c (ih c h))
  | case4 fuel rest hs ih =>
    intro c h
    rw [show parenRemoveGo (fuel + 1) ('(' :: rest) = '(' :: parenRemoveGo fuel rest from by
      conv_lhs => unfold parenRemoveGo
      simp [hs]] at h
    rcases List.mem_cons.mp h with h1 | h2
    · exact h1 ▸ List.mem_cons_self _ _
    · exact List.mem_cons_of_mem _ (ih c h2)
  | case5 fuel c0 rest hne ih =>
    intro c h
    rw [show parenRemoveGo (fuel + 1) (c0 :: rest) = c0 :: parenRemoveGo fuel rest from by
      conv_lhs => unfold parenRemoveGo
      simp_all] at h
    rcases List.mem_cons.mp h with h1 | h2
    · exact h1 ▸ List.mem_cons_self _ _
    · exact List.mem_cons_of_mem _ (ih c h2)

/-- Characters surviving the strip were already in the input. -/
theorem mem_stripL (l : List Char) (c : Char) (h : c ∈ stripL l) : c ∈ l := by
  unfold stripL rdropSpace at h
  have h1 := List.mem_reverse.mp h
  have h2 := (List.dropWhile_sublist isSpace).mem h1
  have h3 := List.mem_reverse.mp h2
  exact (List.dropWhile_sublist isSpace).mem h3

theorem scanClose_cons_ne (c : Char) (l : List Char) (h1 : c ≠ ')') (h2 : c ≠ '\n') :
    scanClose (c :: l) = scanClose l := by
  conv_lhs => unfold scanClose
  simp_all

theorem goodParen_cons_ne (c : Char) (l : List Char) (h : c ≠ '(') :
    goodParen (c :: l) = goodParen l := by
  conv_lhs => unfold goodParen
  simp_all

theorem goodParen_paren (l : List Char) :
    goodParen ('(' :: l) = ((scanClose l).isNone && goodParen l) := rfl

theorem goodParen_tail (c : Char) (l : List Char) (h : goodParen (c :: l) = true) :
    goodParen l = true := by
  by_cases hc : c = '('
  · subst hc
    rw [goodParen_paren] at h
    simp at h
    exact h.2
  · rwa [goodParen_cons_ne c l hc] at h

/-- A lazily unreachable `')'` stays unreachable after truncation. -/
theorem scanClose_none_take :
    ∀ (l : List Char) (n : Nat), scanClose l = none → scanClose (l.take n) = none := by
  intro l
  induction l using scanClose.induct with
  | case1 => intro n h; simp [scanClose]
  | case2 rest => intro n h; simp [scanClose] at h
  | case3 rest =>
    intro n h
    cases n with
    | zero => rfl
    | succ n => rfl
  | case4 c rest h1 h2 ih =>
    intro n h
    rw [scanClose_cons_ne c rest h1 h2] at h
    cases n with
    | zero => rfl
    | succ n =>
      rw [List.take_succ_cons, scanClose_cons_ne c _ h1 h2]
      exact ih n h

/-- Unmatchability of parens is preserved by truncation. -/
theorem goodParen_take :
    ∀ (l : List Char) (n : Nat), goodParen l = true → goodParen (l.take n) = true := by
  intro l
  induction l with
  | nil => intro n h; simpa using h
  | cons c rest ih =>
    intro n h
    cases n with
    | zero => rfl
    | succ n =>
      rw [List.take_succ_cons]
      by_cases hc : c = '('
      · subst hc
        rw [goodParen_paren] at h
        simp at h
        obtain ⟨hsc, hg⟩ := h
        rw [goodParen_paren]
        simp [scanClose_none_take rest n hsc, ih n hg]
      · rw [goodParen_cons_ne c _ hc] at h
        rw [goodParen_cons_ne c _ hc]
        exact ih n h

/-- Unmatchability of parens is preserved by dropping a prefix. -/
theorem goodParen_dropWhile (p : Char → Bool) :
    ∀ l : List Char, goodParen l = true → goodParen (l.dropWhile p) = true := by
  intro l
  induction l with
  | nil => intro h; simpa using h
  | cons c rest ih =>
    intro h
    rw [List.dropWhile_cons]
    split
    · exact ih (goodParen_tail c rest h)
    · exact h

/-- Dropping trailing whitespace is a truncation. -/
theorem rdropSpace_eq_take (l : List Char) : ∃ n, rdropSpace l = l.take n := by
  have hsplit : l.reverse.takeWhile isSpace ++ l.reverse.dropWhile isSpace = l.reverse :=
    List.takeWhile_append_dropWhile isSpace l.reverse
  have hl : (l.reverse.dropWhile isSpace).reverse ++ (l.reverse.takeWhile isSpace).reverse = l := by
    rw [← List.reverse_append, hsplit, List.reverse_reverse]
  have htake := List.take_left (l.reverse.dropWhile isSpace).reverse
    (l.reverse.takeWhile isSpace).reverse
  rw [hl] at htake
  exact ⟨(l.reverse.dropWhile isSpace).reverse.length, htake.symm⟩

/-- Unmatchability of parens is preserved by stripping whitespace. -/
theorem goodParen_stripL (l : List Char) (h : goodParen l = true) :
    goodParen (stripL l) = true := by
  unfold stripL
  obtain ⟨n, hn⟩ := rdropSpace_eq_take (l.dropWhile isSpace)
  rw [hn]
  exact goodParen_take _ n (goodParen_dropWhile isSpace l h)

/-- Paren deletion never deletes a newline and keeps order, so a lazily
unreachable `')'` stays unreachable after deletion. -/
theorem scanClose_none_parenRemoveGo :
    ∀ (fuel : Nat) (l : List Char), scanClose l = none →
      scanClose (parenRemoveGo fuel l) = none := by
  intro fuel l
  induction fuel, l using parenRemoveGo.induct with
  | case1 l => intro h; simpa [parenRemoveGo] using h
  | case2 fuel => intro h; simp [parenRemoveGo, scanClose]
  | case3 fuel rest rest' hs ih =>
    intro h
    rw [scanClose_cons_ne '(' rest (by decide) (by decide), hs] at h
    simp at h
  | case4 fuel rest hs ih =>
    intro h
    rw [show parenRemoveGo (fuel + 1) ('(' :: rest) = '(' :: parenRemoveGo fuel rest from by
      conv_lhs => unfold parenRemoveGo
      simp [hs]]
    rw [scanClose_cons_ne '(' rest (by decide) (by decide)] at h
    rw [scanClose_cons_ne '(' _ (by decide) (by decide)]
    exact ih h
  | case5 fuel c0 rest hne ih =>
    intro h
    rw [show parenRemoveGo (fuel + 1) (c0 :: rest) = c0 :: parenRemoveGo fuel rest from by
      conv_lhs => unfold parenRemoveGo
      simp_all]
    by_cases hc : c0 = ')'
    · subst hc
      simp [scanClose] at h
    · by_cases hn : c0 = '\n'
      · subst hn
        rfl
      · rw [scanClose_cons_ne c0 rest hc hn] at h
        rw [scanClose_cons_ne c0 _ hc hn]
        exact ih h

/-- After paren deletion no matchable paren span remains anywhere. -/
theorem goodParen_parenRemoveGo :
    ∀ (fuel : Nat) (l : List Char), l.length ≤ fuel →
      goodParen (parenRemoveGo fuel l) = true := by
  intro fuel l
  induction fuel, l using parenRemoveGo.induct with
  | case1 l =>
    intro hlen
    have : l = [] := List.length_eq_zero.mp (Nat.le_zero.mp hlen)
    subst this
    rfl
  | case2 fuel => intro hlen; rfl
  | case3 fuel rest rest' hs ih =>
    intro hlen
    rw [show parenRemoveGo (fuel + 1) ('(' :: rest) = parenRemoveGo fuel rest' from by
      conv_lhs => unfold parenRemoveGo
      simp [hs]]
    refine ih ?_
    have h1 := scanClose_length hs
    have h2 : rest.length + 1 ≤ fuel + 1 := by simpa using hlen
    omega
  | case4 fuel rest hs ih =>
    intro hlen
    rw [show parenRemoveGo (fuel + 1) ('(' :: rest) = '(' :: parenRemoveGo fuel rest from by
      conv_lhs => unfold parenRemoveGo
      simp [hs]]
    have hlen' : rest.length ≤ fuel := by simpa using hlen
    rw [goodParen_paren]
    simp [scanClose_none_parenRemoveGo fuel rest hs, ih hlen']
  | case5 fuel c0 rest hne ih =>
    intro hlen
    rw [show parenRemoveGo (fuel + 1) (c0 :: rest) = c0 :: parenRemoveGo fuel rest from by
      conv_lhs => unfold parenRemoveGo
      simp_all]
    have hlen' : rest.length ≤ fuel := by simpa using hlen
    rw [goodParen_cons_ne c0 _ hne]
    exact ih hlen'

/-- On paren-unmatchable text the paren deletion is a no-op. -/
theorem parenRemoveGo_eq_self :
    ∀ (fuel : Nat) (l : List Char), goodParen l = true → parenRemoveGo fuel l = l := by
  intro fuel l
  induction fuel, l using parenRemoveGo.induct with
  | case1 l => intro h; rfl
  | case2 fuel => intro h; rfl
  | case3 fuel rest rest' hs ih =>
    intro h
    rw [goodParen_paren] at h
    simp [hs] at h
  | case4 fuel rest hs ih =>
    intro h
    rw [goodParen_paren] at h
    simp at h
    rw [show parenRemoveGo (fuel + 1) ('(' :: rest) = '(' :: parenRemoveGo fuel rest from by
      conv_lhs => unfold parenRemoveGo
      simp [hs]]
    rw [ih h.2]
  | case5 fuel c0 rest hne ih =>
    intro h
    rw [show parenRemoveGo (fuel + 1) (c0 :: rest) = c0 :: parenRemoveGo fuel rest from by
      conv_lhs => unfold parenRemoveGo
      simp_all]
    rw [ih (goodParen_tail c0 rest h)]

theorem dropWhile_head_no_space (l : List Char) (c : Char)
    (h : (l.dropWhile isSpace).head? = some c) : isSpace c = false := by
  have := List.head?_dropWhile_not isSpace l
  rw [h] at this
  simpa using this

theorem dropWhile_eq_self_of_head (l : List Char)
    (h : ∀ c, l.head? = some c → isSpace c = false) : l.dropWhile isSpace = l := by
  cases l with
  | nil => rfl
  | cons c r =>
    rw [List.dropWhile_cons]
    simp [h c rfl]

theorem take_head? (l : List Char) (n : Nat) (c : Char)
    (h : (l.take n).head? = some c) : l.head? = some c := by
  cases l with
  | nil => simp at h
  | cons a r =>
    cases n with
    | zero => simp at h
    | succ n =>
      rw [List.take_succ_cons] at h
      simpa using h

/-- Python `strip` is idempotent: a stripped text has no leading and no
trailing whitespace left. -/
theorem stripL_idem (l : List Char) : stripL (stripL l) = stripL l := by
  set m := l.dropWhile isSpace with hm
  have hheadm : ∀ c, m.head? = some c → isSpace c = false := by
    intro c hc
    exact dropWhile_head_no_space l c (hm ▸ hc)
  have hA : (rdropSpace m).dropWhile isSpace = rdropSpace m := by
    obtain ⟨n, hn⟩ := rdropSpace_eq_take m
    refine dropWhile_eq_self_of_head _ ?_
    intro c hc
    rw [hn] at hc
    exact hheadm c (take_head? m n c hc)
  have hB : rdropSpace (rdropSpace m) = rdropSpace m := by
    unfold rdropSpace
    rw [List.reverse_reverse, List.dropWhile_idempotent]
  show rdropSpace ((rdropSpace m).dropWhile isSpace) = rdropSpace m
  rw [hA, hB]

/-- C7 (amended): cleaning is idempotent precisely on the inputs whose
cleaned form does not again start with the two-character-plus-colon tag: the
slash and paren patterns indeed can no longer match after one pass and the
result is already trimmed, but paren/whitespace removal can expose a fresh
leading tag that a second pass would strip. -/
theorem clean_idem_of_no_colon_tag (s : String)
    (h : colonPatMatches (clean s) = false) :
    clean (clean s) = clean s := by
  have hd : (clean s).data = stripL (parenRemoveL (slashTrunc (dropColonTag s.data))) := rfl
  set u := slashTrunc (dropColonTag s.data) with hu
  have h1 : dropColonTag (clean s).data = (clean s).data :=
    dropColonTag_eq_self _ h
  have hsl : '/' ∉ (clean s).data := by
    rw [hd]
    intro hmem
    have hm1 := mem_stripL _ _ hmem
    have hm2 := mem_parenRemoveGo u.length u '/' hm1
    exact slash_not_mem_slashTrunc (dropColonTag s.data) hm2
  have h2 : slashTrunc (clean s).data = (clean s).data := slashTrunc_eq_self _ hsl
  have hgood : goodParen (clean s).data = true := by
    rw [hd]
    exact goodParen_stripL _ (goodParen_parenRemoveGo u.length u le_rfl)
  have h3 : parenRemoveL (clean s).data = (clean s).data :=
    parenRemoveGo_eq_self _ _ hgood
  have h4 : stripL (clean s).data = (clean s).data := by
    rw [hd]
    exact stripL_idem _
  show String.mk (stripL (parenRemoveL (slashTrunc (dropColonTag (clean s).data)))) = clean s
  rw [h1, h2, h3, h4]

/-- Witness for `clean_idem_of_no_colon_tag` at a concrete label. -/
theorem clean_idem_witness :
    colonPatMatches (clean "ab:c (x)/y") = false
    ∧ clean (clean "ab:c (x)/y") = clean "ab:c (x)/y" :=
  ⟨by decide, clean_idem_of_no_colon_tag "ab:c (x)/y" (by decide)⟩
